import Mathlib

/-!
Shallow embedding of the timetable grid-state and drag-reposition engine:
the schedule store (ScheduleContext.tsx), the drag snap/commit math
(ScheduleDndProvider.tsx, constants.ts), the catalog search filter and the
request-coalescing fetch cache (SearchDialog), and the table-list UI guard
(ScheduleTables).  JavaScript numbers that carry pixel coordinates are
modelled as rationals; JavaScript objects used as string-keyed maps are
modelled as association lists in insertion order, mirroring object-spread
and Map.set semantics.  Fallible operations (JS code that can throw a
TypeError) return Except.
-/

/-- Floor of a rational, as an executable integer division of numerator by
denominator (Int division in Lean rounds toward negative infinity, and the
denominator of a normalized rational is positive).  Models JS Math.floor. -/
def jsFloor (q : ℚ) : Int := q.num / q.den

/-- Models JS Math.round: round to nearest, ties toward positive infinity,
which is floor of the argument plus one half. -/
def jsRound (q : ℚ) : Int := jsFloor (q + 1/2)

/-- Modelled from the spec: the round the spec prescribes for the drag-end
conversion (sections 4.3 and 8) -- round to nearest with ties away from
zero.  Kept only to state the claimed conversion; the code itself uses
Math.floor there. -/
def roundTiesAway (q : ℚ) : Int :=
  if 0 ≤ q then jsFloor (q + 1/2) else -jsFloor (-q + 1/2)

/-- Boolean test that the second character list is a leading run of the
first.  Models JS String.prototype.startsWith on code points. -/
def listStartsWith : List Char → List Char → Bool
  | _, [] => true
  | [], _ :: _ => false
  | a :: s, b :: p => a == b && listStartsWith s p

/-- Boolean substring test: sub occurs contiguously inside the second list.
Models JS String.prototype.includes on code points. -/
def listContainsSub (sub : List Char) : List Char → Bool
  | [] => listStartsWith [] sub
  | a :: rest => listStartsWith (a :: rest) sub || listContainsSub sub rest

/-- Models JS s.startsWith(p). -/
def jsStartsWith (s p : String) : Bool := listStartsWith s.toList p.toList

/-- Models JS s.includes(sub). -/
def jsIncludes (s sub : String) : Bool := listContainsSub sub.toList s.toList

/-- Models JS s.toLowerCase(), restricted to the ASCII case mapping of
Char.toLower (the inputs of interest are ASCII course codes and Hangul day
labels, which JS lowercases identically). -/
def jsToLower (s : String) : String := String.mk (s.toList.map Char.toLower)

/-- Models JS Array.prototype.indexOf on string arrays: index of the first
match, or -1 when absent. -/
def jsIndexOf : List String → String → Int
  | [], _ => -1
  | a :: rest, s =>
    if a = s then 0
    else
      let r := jsIndexOf rest s
      if r = -1 then -1 else r + 1

/-- Models reading key from a JS object or Map used as a string-keyed map
(prev[tableId], cache.get(key)): the value at the key, none when absent. -/
def jsGet {α : Type} : List (String × α) → String → Option α
  | [], _ => none
  | (k, v) :: rest, key => if k = key then some v else jsGet rest key

/-- Models writing key in a JS object or Map ({...prev, [tableId]: v},
cache.set(key, v)): replace in place when the key exists, append otherwise,
preserving insertion order of keys. -/
def jsSet {α : Type} : List (String × α) → String → α → List (String × α)
  | [], key, v => [(key, v)]
  | (k, w) :: rest, key, v =>
    if k = key then (k, v) :: rest else (k, w) :: jsSet rest key v

/-- Keys of a string-keyed map, in insertion order (Object.keys). -/
def keysOf {α : Type} (m : List (String × α)) : List String := m.map Prod.fst

/- ## Data model (src/types.ts as used by the components) -/

/-- Catalog entry / lecture reference: id, title, credits (a string in the
source data), grade, major, raw schedule string. -/
structure Lecture where
  id : String
  title : String
  credits : String
  grade : Int
  major : String
  schedule : String
deriving DecidableEq

/-- One placed course session on the grid: day label, contiguous slot-index
range, room, and the lecture it came from. -/
structure Schedule where
  day : String
  range : List Int
  room : String
  lecture : Lecture
deriving DecidableEq

/-- State of the ScheduleStore: Record(tableId, Schedule[]). -/
abbrev SchedulesMap := List (String × List Schedule)

/- ## ScheduleStore write actions (src/ScheduleContext.tsx) -/

/-- addSchedule(tableId, schedules) appends the given entries to the table:
setSchedulesMap(prev to {...prev, [tableId]: [...prev[tableId], ...schedules]}).
When tableId is absent, prev[tableId] is undefined and spreading it throws a
TypeError, modelled as Except.error; the published state is then unchanged. -/
def addSchedule (tableId : String) (schedules : List Schedule)
    (prev : SchedulesMap) : Except String SchedulesMap :=
  match jsGet prev tableId with
  | none => Except.error "TypeError: spread of undefined"
  | some cur => Except.ok (jsSet prev tableId (cur ++ schedules))

/-- removeSchedule(tableId, day, time) keeps every entry whose day differs
or whose range does not contain time.  When tableId is absent,
prev[tableId].filter throws, modelled as Except.error. -/
def removeSchedule (tableId day : String) (time : Int)
    (prev : SchedulesMap) : Except String SchedulesMap :=
  match jsGet prev tableId with
  | none => Except.error "TypeError: filter of undefined"
  | some cur =>
    Except.ok (jsSet prev tableId
      (cur.filter fun schedule => schedule.day != day || !(schedule.range.contains time)))

/-- duplicateTable(tableId) inserts a copy of the source entry list under a
freshly generated id.  The source generates newTableId from Date.now(); the
generated id is taken here as an explicit argument.  When tableId is absent,
spreading prev[tableId] throws, modelled as Except.error. -/
def duplicateTable (newTableId tableId : String)
    (prev : SchedulesMap) : Except String SchedulesMap :=
  match jsGet prev tableId with
  | none => Except.error "TypeError: spread of undefined"
  | some cur => Except.ok (jsSet prev newTableId cur)

/-- removeTable(tableId) destructures the key away and keeps the rest:
const (removed, rest pattern).  No guard of any kind in the store itself. -/
def removeTable (tableId : String) (prev : SchedulesMap) : SchedulesMap :=
  prev.filter fun p => p.1 != tableId

/-- Body of updateSchedulePosition: prev[tableId].map((schedule, index) =>
index differs: keep; index matches: copy with day := newDay and every range
entry shifted by timeOffset).  The running JS array index starts at i. -/
def updateList (scheduleIndex : Int) (newDay : String) (timeOffset : Int) :
    Nat → List Schedule → List Schedule
  | _, [] => []
  | i, schedule :: rest =>
    (if (i : Int) ≠ scheduleIndex then schedule
     else { schedule with
            day := newDay,
            range := schedule.range.map fun time => time + timeOffset }) ::
    updateList scheduleIndex newDay timeOffset (i + 1) rest

/-- updateSchedulePosition(tableId, scheduleIndex, newDay, timeOffset).
When tableId is absent, prev[tableId].map throws, modelled as
Except.error. -/
def updateSchedulePosition (tableId : String) (scheduleIndex : Int)
    (newDay : String) (timeOffset : Int)
    (prev : SchedulesMap) : Except String SchedulesMap :=
  match jsGet prev tableId with
  | none => Except.error "TypeError: map of undefined"
  | some cur =>
    Except.ok (jsSet prev tableId (updateList scheduleIndex newDay timeOffset 0 cur))

/- ## ScheduleTables UI layer (src/unnamed/part_002) -/

/-- disabledRemoveButton in ScheduleTables: the remove button is disabled
exactly when Object.keys(schedulesMap).length === 1. -/
def disabledRemoveButton (schedulesMap : SchedulesMap) : Bool :=
  (keysOf schedulesMap).length == 1

/-- The remove-table interaction as reachable through the UI: the button
click calls removeTable, but the button cannot fire while
disabledRemoveButton holds, so on the sole remaining table the state is
left unchanged. -/
def removeTableViaUI (tableId : String) (m : SchedulesMap) : SchedulesMap :=
  if disabledRemoveButton m then m else removeTable tableId m

/-- One store write operation as issued by the UI.  dupOp carries the
generated fresh id of the copy explicitly (Date.now() in the source). -/
inductive StoreOp where
  | addOp (tableId : String) (schedules : List Schedule)
  | removeOp (tableId day : String) (time : Int)
  | dupOp (newTableId tableId : String)
  | removeTableOp (tableId : String)
  | updateOp (tableId : String) (scheduleIndex : Int) (newDay : String) (timeOffset : Int)

/-- Effect of one write operation on the published store state.  A write
whose updater throws (Except.error) publishes nothing, so the state is
retained; removal goes through the guarded UI button. -/
def applyOp (op : StoreOp) (m : SchedulesMap) : SchedulesMap :=
  match op with
  | .addOp t s =>
    match addSchedule t s m with
    | .ok m' => m'
    | .error _ => m
  | .removeOp t d tm =>
    match removeSchedule t d tm m with
    | .ok m' => m'
    | .error _ => m
  | .dupOp n t =>
    match duplicateTable n t m with
    | .ok m' => m'
    | .error _ => m
  | .removeTableOp t => removeTableViaUI t m
  | .updateOp t i d off =>
    match updateSchedulePosition t i d off m with
    | .ok m' => m'
    | .error _ => m

/-- The table key an operation writes to (the only key whose binding the
operation can change). -/
def opWrites (op : StoreOp) (t : String) : Prop :=
  match op with
  | .addOp t' _ => t = t'
  | .removeOp t' _ _ => t = t'
  | .dupOp n _ => t = n
  | .removeTableOp t' => t = t'
  | .updateOp t' _ _ _ => t = t'

/- ## Grid geometry constants (src/constants.ts) -/

/-- Ordered weekday labels of the grid. -/
def DAY_LABELS : List String := ["월", "화", "수", "목", "금", "토"]

namespace CellSize

/-- Pixel width of one day column. -/
def WIDTH : ℚ := 80

/-- Pixel height of one slot row. -/
def HEIGHT : ℚ := 30

end CellSize

/- ## Drag snap modifier and drop handler (src/ScheduleDndProvider.tsx) -/

/-- Bounding rectangle of a DOM node, in pixels. -/
structure Rect where
  top : ℚ
  left : ℚ
  bottom : ℚ
  right : ℚ
deriving DecidableEq

/-- Live drag transform (cumulative pointer delta in pixels). -/
structure Transform where
  x : ℚ
  y : ℚ
deriving DecidableEq

/-- The modifier returned by createSnapModifier: snap each axis of the raw
delta to a whole number of cells with Math.round, then clamp into
[minX, maxX] and [minY, maxY] derived from the container and dragged
rects (the ?? 0 defaults model absent rects). -/
def snapModifier (transform : Transform)
    (containerNodeRect draggingNodeRect : Option Rect) : Transform :=
  let containerTop := (containerNodeRect.map Rect.top).getD 0
  let containerLeft := (containerNodeRect.map Rect.left).getD 0
  let containerBottom := (containerNodeRect.map Rect.bottom).getD 0
  let containerRight := (containerNodeRect.map Rect.right).getD 0
  let top := (draggingNodeRect.map Rect.top).getD 0
  let left := (draggingNodeRect.map Rect.left).getD 0
  let bottom := (draggingNodeRect.map Rect.bottom).getD 0
  let right := (draggingNodeRect.map Rect.right).getD 0
  let minX := containerLeft - left + 120 + 1
  let minY := containerTop - top + 40 + 1
  let maxX := containerRight - right
  let maxY := containerBottom - bottom
  { transform with
    x := min (max ((jsRound (transform.x / CellSize.WIDTH) : ℚ) * CellSize.WIDTH) minX) maxX,
    y := min (max ((jsRound (transform.y / CellSize.HEIGHT) : ℚ) * CellSize.HEIGHT) minY) maxY }

/-- Drag-end event data as handleDragEnd consumes it: active.id is the
composite string tableId:index, already split here into draggedTableId and
index (Number(index) in the source); day is active.data.current?.day; x, y
are the final clamped pixel delta. -/
structure DragEndEvent where
  draggedTableId : String
  index : Int
  day : String
  x : ℚ
  y : ℚ

/-- handleDragEnd of ScheduleDndProvider: ignore drags of other tables,
convert the final pixel delta to cell deltas with Math.floor, discard the
drop when the resulting day index leaves [0, DAY_LABELS.length), and
otherwise return the argument tuple passed to updateSchedulePosition
(tableId, index, newDay, timeOffset); none means no store call is made. -/
def handleDragEnd (tableId : String) (event : DragEndEvent) :
    Option (String × Int × String × Int) :=
  if event.draggedTableId ≠ tableId then none
  else
    let nowDayIndex := jsIndexOf DAY_LABELS event.day
    let moveDayIndex := jsFloor (event.x / CellSize.WIDTH)
    let moveTimeIndex := jsFloor (event.y / CellSize.HEIGHT)
    let newDayIndex := nowDayIndex + moveDayIndex
    if newDayIndex < 0 ∨ (DAY_LABELS.length : Int) ≤ newDayIndex then none
    else some (tableId, event.index, DAY_LABELS.getD newDayIndex.toNat "", moveTimeIndex)

/-- Modelled from the spec: the drag-end conversion as section 4.3 words it,
with the round the spec defines -- round-to-nearest, ties away from zero:
dayDelta = round(finalX / cellWidth), timeDelta = round(finalY / cellHeight)
-- in place of the floor the code uses; kept only to compare against
handleDragEnd. -/
def handleDragEndRounded (tableId : String) (event : DragEndEvent) :
    Option (String × Int × String × Int) :=
  if event.draggedTableId ≠ tableId then none
  else
    let nowDayIndex := jsIndexOf DAY_LABELS event.day
    let moveDayIndex := roundTiesAway (event.x / CellSize.WIDTH)
    let moveTimeIndex := roundTiesAway (event.y / CellSize.HEIGHT)
    let newDayIndex := nowDayIndex + moveDayIndex
    if newDayIndex < 0 ∨ (DAY_LABELS.length : Int) ≤ newDayIndex then none
    else some (tableId, event.index, DAY_LABELS.getD newDayIndex.toNat "", moveTimeIndex)

/- ## Search filter pipeline (src/unnamed/part_001, SearchDialog) -/

/-- One session parsed out of a raw schedule string: day, slot range, room. -/
structure ParsedSchedule where
  day : String
  range : List Int
  room : String
deriving DecidableEq

/-- The mutable search query (SearchOption): free text, grade set, day set,
time-slot set, major set, optional credit selection. -/
structure SearchOption where
  query : String
  grades : List Int
  days : List String
  times : List Int
  majors : List String
  credits : Option Int
deriving DecidableEq

/-- Free-text filter: case-insensitive substring of title or id. -/
def matchesQuery (query : String) (lecture : Lecture) : Bool :=
  jsIncludes (jsToLower lecture.title) (jsToLower query) ||
  jsIncludes (jsToLower lecture.id) (jsToLower query)

/-- Grade filter: empty set accepts everything, else membership. -/
def matchesGrades (grades : List Int) (lecture : Lecture) : Bool :=
  grades.length == 0 || grades.contains lecture.grade

/-- Major filter: empty set accepts everything, else membership. -/
def matchesMajors (majors : List String) (lecture : Lecture) : Bool :=
  majors.length == 0 || majors.contains lecture.major

/-- Credit filter, exactly as the source has it: !credits (absent or zero)
accepts everything, else lecture.credits.startsWith(String(credits)) -- a
decimal-string prefix test, not an equality test. -/
def matchesCredits (credits : Option Int) (lecture : Lecture) : Bool :=
  match credits with
  | none => true
  | some c => c == 0 || jsStartsWith lecture.credits (toString c)

/-- lecture.schedule ? parseSchedule(lecture.schedule) : [] -- the empty
string is falsy in JS.  parseSchedule itself lives in src/utils.ts, which
is not among the provided sources; it is taken as an explicit argument
(Modelled from the spec: a deterministic collaborator turning the raw
schedule string into zero or more parsed sessions). -/
def lectureSessions (parseSchedule : String → List ParsedSchedule)
    (lecture : Lecture) : List ParsedSchedule :=
  if lecture.schedule ≠ "" then parseSchedule lecture.schedule else []

/-- Day filter: empty set accepts everything, else some parsed session lies
on one of the chosen days. -/
def matchesDays (parseSchedule : String → List ParsedSchedule)
    (days : List String) (lecture : Lecture) : Bool :=
  days.length == 0 ||
  (lectureSessions parseSchedule lecture).any fun s => days.contains s.day

/-- Time filter: empty set accepts everything, else some parsed session
covers one of the chosen slots. -/
def matchesTimes (parseSchedule : String → List ParsedSchedule)
    (times : List Int) (lecture : Lecture) : Bool :=
  times.length == 0 ||
  (lectureSessions parseSchedule lecture).any fun s =>
    s.range.any fun time => times.contains time

/-- filteredLectures of SearchDialog: the six filters chained in source
order (query, grades, majors, credits, days, times). -/
def filteredLectures (parseSchedule : String → List ParsedSchedule)
    (searchOptions : SearchOption) (lectures : List Lecture) : List Lecture :=
  (((((lectures.filter
    (matchesQuery searchOptions.query)).filter
    (matchesGrades searchOptions.grades)).filter
    (matchesMajors searchOptions.majors)).filter
    (matchesCredits searchOptions.credits)).filter
    (matchesDays parseSchedule searchOptions.days)).filter
    (matchesTimes parseSchedule searchOptions.times)

/-- Modelled from the spec: credit filtering as claim C8 words it, an exact
match of the credit value against the query credit; kept only to compare
against matchesCredits. -/
def matchesCreditsExact (credits : Option Int) (lecture : Lecture) : Bool :=
  match credits with
  | none => true
  | some c => lecture.credits == toString c

/- ## Catalog fetch cache (src/unnamed/part_001, fetchMajors and friends) -/

/-- One cache slot as stored under a resource key: the pending promise
(identified by an abstract handle), the timestamp recorded at creation,
and the resolved payload once the promise settles (none while pending). -/
structure CacheEntry where
  promise : Nat
  timestamp : Nat
  data : Option (List Lecture)
deriving DecidableEq

/-- The window.lectureApiCache map together with a count of underlying
axios.get calls issued so far; each new underlying fetch receives the
current count as its fresh promise handle. -/
structure CacheState where
  entries : List (String × CacheEntry)
  issued : Nat

/-- Core of fetchMajors / fetchLiberalArts, parametrized by the resource
key: return the cached promise when the key is present, else issue one
underlying fetch, store its pending entry under the key (data is filled in
only when the promise later resolves), and return the new promise. -/
def fetchByKey (cacheKey : String) (now : Nat) (st : CacheState) :
    Nat × CacheState :=
  match jsGet st.entries cacheKey with
  | some cached => (cached.promise, st)
  | none =>
    (st.issued,
     { entries := jsSet st.entries cacheKey
         { promise := st.issued, timestamp := now, data := none },
       issued := st.issued + 1 })

/-- fetchMajors: fetchByKey at the fixed key schedules-majors. -/
def fetchMajors (now : Nat) (st : CacheState) : Nat × CacheState :=
  fetchByKey "schedules-majors" now st

/-- fetchLiberalArts: fetchByKey at the fixed key schedules-liberal-arts. -/
def fetchLiberalArts (now : Nat) (st : CacheState) : Nat × CacheState :=
  fetchByKey "schedules-liberal-arts" now st


/- ## Concrete fixtures used by counterexamples and witnesses -/

/-- Sample catalog lecture with credit string 3. -/
def lecA : Lecture :=
  { id := "L1", title := "Algebra", credits := "3", grade := 1, major := "Math", schedule := "" }

/-- Sample placed entry on Monday slots 1-2. -/
def schedA : Schedule := { day := "월", range := [1, 2], room := "101", lecture := lecA }

/-- Sample store holding a single table A with one entry. -/
def mapA : SchedulesMap := [("A", [schedA])]

/-- Sample catalog lecture whose credit string 35 begins with the digit 3. -/
def lec35 : Lecture :=
  { id := "X1", title := "Seminar", credits := "35", grade := 1, major := "Math", schedule := "" }

/-- Query selecting credit 3 and nothing else. -/
def qCredits3 : SearchOption :=
  { query := "", grades := [], days := [], times := [], majors := [], credits := some 3 }

/-- Container rect wide enough that clamping never binds in the tests. -/
def wideContainer : Rect :=
  { top := -100000, left := -100000, bottom := 100000, right := 100000 }

/-- Dragged-node rect at the origin with zero extent. -/
def originRect : Rect := { top := 0, left := 0, bottom := 0, right := 0 }

/-- Drop event for table A entry 0 starting on Tuesday, with final clamped
delta (-30, -10): three eighths of a cell leftward and one third of a cell
upward, below half a cell on both axes, so no rounding tie arises and
round-to-nearest is 0 on both axes under any tie-break rule. -/
def dragEvC2 : DragEndEvent :=
  { draggedTableId := "A", index := 0, day := "화", x := -30, y := -10 }

/- ## Lemmas: rounding -/

/-- jsFloor agrees with the mathematical floor. -/
theorem jsFloor_eq_floor (q : ℚ) : jsFloor q = ⌊q⌋ := Rat.floor_def.symm

/-- jsRound is the floor of the argument shifted by one half. -/
theorem jsRound_eq_floor (q : ℚ) : jsRound q = ⌊q + 1/2⌋ := by
  rw [jsRound, jsFloor_eq_floor]

/- ## Lemmas: string-keyed maps -/

/-- Keys of a cons cell. -/
theorem keysOf_cons {α : Type} (a : String) (v : α) (m : List (String × α)) :
    keysOf ((a, v) :: m) = a :: keysOf m := rfl

/-- Reading back the key just written yields the written value. -/
theorem jsGet_jsSet_self {α : Type} (m : List (String × α)) (k : String) (v : α) :
    jsGet (jsSet m k v) k = some v := by
  induction m with
  | nil => simp [jsSet, jsGet]
  | cons p rest ih =>
    obtain ⟨a, w⟩ := p
    by_cases h : a = k
    · subst h
      simp [jsSet, jsGet]
    · simp [jsSet, jsGet, h, ih]

/-- Writing one key leaves every other key unchanged. -/
theorem jsGet_jsSet_ne {α : Type} (m : List (String × α)) (k k' : String) (v : α)
    (h : k' ≠ k) : jsGet (jsSet m k v) k' = jsGet m k' := by
  induction m with
  | nil => simp [jsSet, jsGet, Ne.symm h]
  | cons p rest ih =>
    obtain ⟨a, w⟩ := p
    by_cases hak : a = k
    · subst hak
      simp [jsSet, jsGet, Ne.symm h]
    · by_cases hak' : a = k'
      · subst hak'
        simp [jsSet, jsGet, hak]
      · simp [jsSet, jsGet, hak, hak', ih]

/-- Writing back the value already stored at a key is the identity. -/
theorem jsSet_jsGet_eq {α : Type} (m : List (String × α)) (k : String) (v : α)
    (h : jsGet m k = some v) : jsSet m k v = m := by
  induction m with
  | nil => simp [jsGet] at h
  | cons p rest ih =>
    obtain ⟨a, w⟩ := p
    by_cases hak : a = k
    · subst hak
      simp [jsGet] at h
      simp [jsSet, h]
    · simp [jsGet, hak] at h
      simp [jsSet, hak, ih h]

/-- Two consecutive writes to the same key collapse to the second. -/
theorem jsSet_jsSet {α : Type} (m : List (String × α)) (k : String) (a b : α) :
    jsSet (jsSet m k a) k b = jsSet m k b := by
  induction m with
  | nil => simp [jsSet]
  | cons p rest ih =>
    obtain ⟨c, w⟩ := p
    by_cases hck : c = k
    · subst hck
      simp [jsSet]
    · simp [jsSet, hck, ih]

/-- Overwriting a present key preserves the number of entries. -/
theorem length_jsSet_some {α : Type} (m : List (String × α)) (k : String) (v w : α)
    (h : jsGet m k = some w) : (jsSet m k v).length = m.length := by
  induction m with
  | nil => simp [jsGet] at h
  | cons p rest ih =>
    obtain ⟨a, u⟩ := p
    by_cases hak : a = k
    · subst hak
      simp [jsSet]
    · simp [jsGet, hak] at h
      simp [jsSet, hak, ih h]

/-- Writing an absent key appends one entry. -/
theorem length_jsSet_none {α : Type} (m : List (String × α)) (k : String) (v : α)
    (h : jsGet m k = none) : (jsSet m k v).length = m.length + 1 := by
  induction m with
  | nil => simp [jsSet]
  | cons p rest ih =>
    obtain ⟨a, u⟩ := p
    by_cases hak : a = k
    · subst hak
      simp [jsGet] at h
    · simp [jsGet, hak] at h
      simp [jsSet, hak, ih h]

/-- Overwriting a present key preserves the key list. -/
theorem keysOf_jsSet_some {α : Type} (m : List (String × α)) (k : String) (v w : α)
    (h : jsGet m k = some w) : keysOf (jsSet m k v) = keysOf m := by
  induction m with
  | nil => simp [jsGet] at h
  | cons p rest ih =>
    obtain ⟨a, u⟩ := p
    by_cases hak : a = k
    · subst hak
      simp [jsSet, keysOf_cons]
    · simp [jsGet, hak] at h
      simp [jsSet, hak, keysOf_cons, ih h]

/-- Writing an absent key appends it to the key list. -/
theorem keysOf_jsSet_none {α : Type} (m : List (String × α)) (k : String) (v : α)
    (h : jsGet m k = none) : keysOf (jsSet m k v) = keysOf m ++ [k] := by
  induction m with
  | nil => simp [jsSet, keysOf]
  | cons p rest ih =>
    obtain ⟨a, u⟩ := p
    by_cases hak : a = k
    · subst hak
      simp [jsGet] at h
    · simp [jsGet, hak] at h
      simp [jsSet, hak, keysOf_cons, ih h]

/-- A key reads as none exactly when it is not among the keys. -/
theorem jsGet_eq_none_iff {α : Type} (m : List (String × α)) (k : String) :
    jsGet m k = none ↔ k ∉ keysOf m := by
  induction m with
  | nil => simp [jsGet, keysOf]
  | cons p rest ih =>
    obtain ⟨a, u⟩ := p
    by_cases hak : a = k
    · subst hak
      simp [jsGet, keysOf_cons]
    · have hka : k ≠ a := fun hh => hak hh.symm
      simp [jsGet, keysOf_cons, hak, hka, ih]

/-- Writing any key preserves distinctness of keys. -/
theorem nodup_keysOf_jsSet {α : Type} (m : List (String × α)) (k : String) (v : α)
    (h : (keysOf m).Nodup) : (keysOf (jsSet m k v)).Nodup := by
  cases hg : jsGet m k with
  | some w => rw [keysOf_jsSet_some m k v w hg]; exact h
  | none =>
    rw [keysOf_jsSet_none m k v hg]
    have hk := (jsGet_eq_none_iff m k).1 hg
    simp [List.nodup_append, h, hk]

/- ## Lemmas: removeTable -/

/-- Removing one table leaves every other key unchanged. -/
theorem jsGet_removeTable_ne (m : SchedulesMap) (t x : String) (h : x ≠ t) :
    jsGet (removeTable t m) x = jsGet m x := by
  induction m with
  | nil => rfl
  | cons p rest ih =>
    obtain ⟨a, w⟩ := p
    by_cases hat : a = t
    · subst hat
      have hax : a ≠ x := Ne.symm h
      simp [removeTable, jsGet, hax]
      simpa [removeTable] using ih
    · by_cases hax : a = x
      · subst hax
        simp [removeTable, jsGet, bne_iff_ne, hat]
      · simp [removeTable, jsGet, bne_iff_ne, hat, hax]
        simpa [removeTable] using ih

/-- Removing an id that is not a key changes nothing. -/
theorem removeTable_eq_self (m : SchedulesMap) (t : String) (h : t ∉ keysOf m) :
    removeTable t m = m := by
  induction m with
  | nil => rfl
  | cons p rest ih =>
    obtain ⟨a, w⟩ := p
    rw [keysOf_cons, List.mem_cons] at h
    push_neg at h
    obtain ⟨hta, htrest⟩ := h
    simp [removeTable, bne_iff_ne, Ne.symm hta]
    simpa [removeTable] using ih htrest

/-- Keys after removeTable are the old keys with the removed id dropped. -/
theorem keysOf_removeTable (m : SchedulesMap) (t : String) :
    keysOf (removeTable t m) = (keysOf m).filter (fun s => s != t) := by
  induction m with
  | nil => rfl
  | cons p rest ih =>
    obtain ⟨a, w⟩ := p
    by_cases hat : a = t
    · subst hat
      have hf : (a != a) = false := by simp
      rw [removeTable, keysOf_cons, List.filter_cons, List.filter_cons]
      simp only [hf]
      simpa [removeTable] using ih
    · have hf : (a != t) = true := by simp [bne_iff_ne, hat]
      rw [removeTable, keysOf_cons, List.filter_cons, List.filter_cons]
      simp only [hf, if_true]
      rw [keysOf_cons]
      have := ih
      rw [removeTable] at this
      rw [this]

/-- With distinct keys and at least two tables, removeTable keeps at least
one table. -/
theorem length_removeTable_pos (m : SchedulesMap) (t : String)
    (hnd : (keysOf m).Nodup) (h2 : 2 ≤ m.length) : 1 ≤ (removeTable t m).length := by
  cases m with
  | nil => simp at h2
  | cons p rest =>
    obtain ⟨a, w⟩ := p
    by_cases hat : a = t
    · subst hat
      rw [keysOf_cons] at hnd
      have hrest : a ∉ keysOf rest := (List.nodup_cons.1 hnd).1
      have hrm : removeTable a ((a, w) :: rest) = rest := by
        have hf : (a != a) = false := by simp
        rw [removeTable, List.filter_cons]
        simp only [hf, Bool.false_eq_true, if_false]
        show removeTable a rest = rest
        exact removeTable_eq_self rest a hrest
      rw [hrm]
      simp at h2
      omega
    · simp [removeTable, bne_iff_ne, hat]

/- ## Lemmas: updateList -/

/-- The indexed map preserves length. -/
theorem updateList_length (idx : Int) (d : String) (off : Int) (n : Nat)
    (l : List Schedule) : (updateList idx d off n l).length = l.length := by
  induction l generalizing n with
  | nil => rfl
  | cons a rest ih => simp [updateList, ih]

/-- Element j of the indexed map starting at array index n: changed exactly
when n + j is the target index. -/
theorem updateList_getElem (idx : Int) (d : String) (off : Int)
    (l : List Schedule) (n j : Nat) (hj : j < l.length) :
    (updateList idx d off n l).get ⟨j, by rw [updateList_length]; exact hj⟩ =
      (if ((n + j : Nat) : Int) = idx
       then { l.get ⟨j, hj⟩ with
              day := d,
              range := (l.get ⟨j, hj⟩).range.map fun time => time + off }
       else l.get ⟨j, hj⟩) := by
  induction l generalizing n j with
  | nil => simp at hj
  | cons a rest ih =>
    cases j with
    | zero =>
      by_cases h : ((n : Int) = idx)
      · simp [updateList, h]
      · simp [updateList, h]
    | succ j' =>
      have hj' : j' < rest.length := by simpa using hj
      have := ih (n + 1) j' hj'
      have harith : ((n + 1 + j' : Nat) : Int) = ((n + (j' + 1) : Nat) : Int) := by
        push_cast
        ring
      simpa [updateList, harith] using this

/-- When the target index lies outside the array indices n, ..., n+len-1,
the indexed map is the identity. -/
theorem updateList_oob (idx : Int) (d : String) (off : Int) (n : Nat)
    (l : List Schedule) (h : idx < (n : Int) ∨ ((n + l.length : Nat) : Int) ≤ idx) :
    updateList idx d off n l = l := by
  induction l generalizing n with
  | nil => rfl
  | cons a rest ih =>
    have hne : ((n : Int) ≠ idx) := by
      rcases h with h | h
      · exact fun hh => absurd (hh ▸ h) (lt_irrefl _)
      · intro hh
        rw [← hh] at h
        have : (n : Int) < ((n + rest.length + 1 : Nat) : Int) := by
          push_cast
          omega
        simp [List.length_cons] at h
        omega
    have hrest : idx < ((n + 1 : Nat) : Int) ∨ (((n + 1) + rest.length : Nat) : Int) ≤ idx := by
      rcases h with h | h
      · left
        push_cast
        omega
      · right
        simp [List.length_cons] at h
        push_cast
        omega
    simp [updateList, hne, ih (n + 1) hrest]

/- ## Lemmas: operations and the reachability invariant -/

/-- A write operation leaves the binding of every key it does not write
unchanged (frame property of the store). -/
theorem jsGet_applyOp_ne (op : StoreOp) (m : SchedulesMap) (x : String)
    (h : ¬ opWrites op x) : jsGet (applyOp op m) x = jsGet m x := by
  cases op with
  | addOp t s =>
    simp [opWrites] at h
    cases hg : jsGet m t with
    | none => simp [applyOp, addSchedule, hg]
    | some cur => simp [applyOp, addSchedule, hg, jsGet_jsSet_ne m t x _ h]
  | removeOp t d tm =>
    simp [opWrites] at h
    cases hg : jsGet m t with
    | none => simp [applyOp, removeSchedule, hg]
    | some cur => simp [applyOp, removeSchedule, hg, jsGet_jsSet_ne m t x _ h]
  | dupOp n t =>
    simp [opWrites] at h
    cases hg : jsGet m t with
    | none => simp [applyOp, duplicateTable, hg]
    | some cur => simp [applyOp, duplicateTable, hg, jsGet_jsSet_ne m n x _ h]
  | removeTableOp t =>
    simp [opWrites] at h
    by_cases hd : disabledRemoveButton m
    · simp [applyOp, removeTableViaUI, hd]
    · simp [applyOp, removeTableViaUI, hd, jsGet_removeTable_ne m t x h]
  | updateOp t i d off =>
    simp [opWrites] at h
    cases hg : jsGet m t with
    | none => simp [applyOp, updateSchedulePosition, hg]
    | some cur => simp [applyOp, updateSchedulePosition, hg, jsGet_jsSet_ne m t x _ h]

/-- Every write operation preserves the invariant: at least one table, and
distinct table ids. -/
theorem applyOp_preserves (op : StoreOp) (m : SchedulesMap)
    (hnd : (keysOf m).Nodup) (hne : 1 ≤ m.length) :
    1 ≤ (applyOp op m).length ∧ (keysOf (applyOp op m)).Nodup := by
  have hkeys : (keysOf m).length = m.length := List.length_map _ _
  cases op with
  | addOp t s =>
    cases hg : jsGet m t with
    | none => simpa [applyOp, addSchedule, hg] using ⟨hne, hnd⟩
    | some cur =>
      constructor
      · simpa [applyOp, addSchedule, hg, length_jsSet_some m t _ cur hg] using hne
      · simpa [applyOp, addSchedule, hg] using nodup_keysOf_jsSet m t _ hnd
  | removeOp t d tm =>
    cases hg : jsGet m t with
    | none => simpa [applyOp, removeSchedule, hg] using ⟨hne, hnd⟩
    | some cur =>
      constructor
      · simpa [applyOp, removeSchedule, hg, length_jsSet_some m t _ cur hg] using hne
      · simpa [applyOp, removeSchedule, hg] using nodup_keysOf_jsSet m t _ hnd
  | dupOp n t =>
    cases hg : jsGet m t with
    | none => simpa [applyOp, duplicateTable, hg] using ⟨hne, hnd⟩
    | some cur =>
      constructor
      · cases hgn : jsGet m n with
        | none =>
          rw [applyOp]
          simp only [duplicateTable, hg]
          simp [length_jsSet_none m n _ hgn]
        | some w =>
          rw [applyOp]
          simp only [duplicateTable, hg]
          simpa [length_jsSet_some m n _ w hgn] using hne
      · simpa [applyOp, duplicateTable, hg] using nodup_keysOf_jsSet m n _ hnd
  | removeTableOp t =>
    by_cases hd : disabledRemoveButton m
    · simpa [applyOp, removeTableViaUI, hd] using ⟨hne, hnd⟩
    · have h2 : 2 ≤ m.length := by
        simp [disabledRemoveButton, hkeys] at hd
        omega
      constructor
      · simpa [applyOp, removeTableViaUI, hd] using length_removeTable_pos m t hnd h2
      · rw [applyOp, removeTableViaUI, if_neg hd, keysOf_removeTable]
        exact List.Nodup.filter _ hnd
  | updateOp t i d off =>
    cases hg : jsGet m t with
    | none => simpa [applyOp, updateSchedulePosition, hg] using ⟨hne, hnd⟩
    | some cur =>
      constructor
      · simpa [applyOp, updateSchedulePosition, hg, length_jsSet_some m t _ cur hg] using hne
      · simpa [applyOp, updateSchedulePosition, hg] using nodup_keysOf_jsSet m t _ hnd

/- ## Claim C1 -/

/-- C1, counterexample: the store-level removeTable carries no guard; on a
state holding only table A it deletes that sole table, leaving an empty
mapping, so at the store level the call is not rejected and the state does
change. -/
theorem removeTable_deletes_sole_table :
    removeTable "A" mapA = [] ∧ ([] : SchedulesMap) ≠ mapA := by
  constructor
  · rfl
  · simp [mapA]

/-- C1 (amended): the rejection lives one layer up, in ScheduleTables: the
remove button is disabled exactly when one table remains, so the
remove-table interaction reachable through the UI leaves a one-table state
unchanged; and every store write issued by the UI preserves the invariant
that at least one table exists (with distinct table ids). -/
theorem lastTable_guard_and_reachable (m : SchedulesMap)
    (hnd : (keysOf m).Nodup) (hne : 1 ≤ m.length) :
    (∀ tableId, m.length = 1 → removeTableViaUI tableId m = m) ∧
    ∀ op : StoreOp, 1 ≤ (applyOp op m).length ∧ (keysOf (applyOp op m)).Nodup := by
  constructor
  · intro tid h1
    have hbtn : disabledRemoveButton m = true := by
      simp [disabledRemoveButton, keysOf, h1]
    simp [removeTableViaUI, hbtn]
  · intro op
    exact applyOp_preserves op m hnd hne

/-- C1 witness: on the one-table state mapA the UI-level removal is the
identity, and applying the remove operation keeps at least one table. -/
theorem lastTable_guard_and_reachable_witness :
    removeTableViaUI "A" mapA = mapA ∧
    1 ≤ (applyOp (StoreOp.removeTableOp "A") mapA).length := by
  have h := lastTable_guard_and_reachable mapA (by simp [keysOf, mapA]) (by simp [mapA])
  exact ⟨h.1 "A" (by simp [mapA]), (h.2 (StoreOp.removeTableOp "A")).1⟩

/- ## Claim C4 -/

/-- C4, counterexample: with table A present and holding one entry, the
out-of-bounds index 5 makes updateSchedulePosition return ok with the state
unchanged -- a silent no-op, not the index error the claim requires. -/
theorem updateSchedulePosition_oob_returns_ok :
    updateSchedulePosition "A" 5 "화" 1 mapA = Except.ok mapA := rfl

/-- C4 (amended): for a present tableId and an entryIndex outside
[0, entry count), updateSchedulePosition succeeds with the store state
unchanged: the internal map touches no element, no error is reported, and
the published mapping is value-equal to the previous one (a silent no-op,
contrary to the fail-with-index-error behavior the spec prescribes). -/
theorem updateSchedulePosition_oob_silent_noop (m : SchedulesMap) (t : String)
    (l : List Schedule) (i : Int) (d : String) (off : Int)
    (hl : jsGet m t = some l) (hoob : i < 0 ∨ (l.length : Int) ≤ i) :
    updateSchedulePosition t i d off m = Except.ok m := by
  have hu : updateList i d off 0 l = l := by
    apply updateList_oob
    rcases hoob with h | h
    · left
      simpa using h
    · right
      simpa using h
  simp [updateSchedulePosition, hl, hu, jsSet_jsGet_eq m t l hl]

/-- C4 witness: the amended statement evaluated on mapA at index 5. -/
theorem updateSchedulePosition_oob_silent_noop_witness :
    updateSchedulePosition "A" 5 "화" 1 mapA = Except.ok mapA :=
  updateSchedulePosition_oob_silent_noop mapA "A" [schedA] 5 "화" 1 rfl
    (by right; simp)

/- ## Claim C5 -/

/-- C5, counterexample: adding to the unknown table B does not complete as
a silent no-op; spreading the undefined entry list throws, modelled as an
error result. -/
theorem addSchedule_unknown_table_throws :
    addSchedule "B" [] mapA = Except.error "TypeError: spread of undefined" := rfl

/-- C5 (amended): for every state and tableId absent from the mapping,
addSchedule throws (a TypeError from spreading undefined) instead of
completing silently; the updater aborts with an error and publishes no new
mapping. -/
theorem addSchedule_unknown_table_errors (m : SchedulesMap) (t : String)
    (ss : List Schedule) (h : jsGet m t = none) :
    ∃ e, addSchedule t ss m = Except.error e :=
  ⟨"TypeError: spread of undefined", by simp [addSchedule, h]⟩

/-- C5 witness: the amended statement evaluated at the unknown table B. -/
theorem addSchedule_unknown_table_errors_witness :
    ∃ e, addSchedule "B" [] mapA = Except.error e :=
  addSchedule_unknown_table_errors mapA "B" [] rfl

/-- Variant of updateList_getElem taking the transported bound as an
argument, convenient for rewriting. -/
theorem updateList_get (idx : Int) (d : String) (off : Int)
    (l : List Schedule) (n j : Nat) (hj : j < l.length)
    (h' : j < (updateList idx d off n l).length) :
    (updateList idx d off n l).get ⟨j, h'⟩ =
      (if ((n + j : Nat) : Int) = idx
       then { l.get ⟨j, hj⟩ with
              day := d,
              range := (l.get ⟨j, hj⟩).range.map fun time => time + off }
       else l.get ⟨j, hj⟩) :=
  updateList_getElem idx d off l n j hj

/- ## Claim C6 -/

/-- C6 (confirmed): duplicating a present source table under a fresh id
yields a new table whose entry list is value-equal to the source list at
that moment, and afterwards any write operation addressed to one of the two
tables (and not generating the other as its fresh id) leaves the other
table's entries untouched -- the two tables share no state. -/
theorem duplicateTable_copies_and_isolates (m : SchedulesMap) (srcId newId : String)
    (l : List Schedule) (hsrc : jsGet m srcId = some l) (hfresh : jsGet m newId = none) :
    ∃ m', duplicateTable newId srcId m = Except.ok m' ∧
      jsGet m' newId = some l ∧ jsGet m' srcId = some l ∧
      (∀ op : StoreOp, opWrites op srcId → ¬opWrites op newId →
        jsGet (applyOp op m') newId = some l) ∧
      (∀ op : StoreOp, opWrites op newId → ¬opWrites op srcId →
        jsGet (applyOp op m') srcId = some l) := by
  have hne : srcId ≠ newId := by
    intro h
    rw [h, hfresh] at hsrc
    cases hsrc
  refine ⟨jsSet m newId l, by simp [duplicateTable, hsrc], jsGet_jsSet_self m newId l,
    ?_, ?_, ?_⟩
  · rw [jsGet_jsSet_ne m newId srcId l hne]
    exact hsrc
  · intro op hw hnw
    rw [jsGet_applyOp_ne op _ newId hnw, jsGet_jsSet_self]
  · intro op hw hnw
    rw [jsGet_applyOp_ne op _ srcId hnw, jsGet_jsSet_ne m newId srcId l hne]
    exact hsrc

/-- C6 witness: duplicating table A of mapA as B. -/
theorem duplicateTable_copies_and_isolates_witness :
    ∃ m', duplicateTable "B" "A" mapA = Except.ok m' ∧
      jsGet m' "B" = some [schedA] ∧ jsGet m' "A" = some [schedA] ∧
      (∀ op : StoreOp, opWrites op "A" → ¬opWrites op "B" →
        jsGet (applyOp op m') "B" = some [schedA]) ∧
      (∀ op : StoreOp, opWrites op "B" → ¬opWrites op "A" →
        jsGet (applyOp op m') "A" = some [schedA]) :=
  duplicateTable_copies_and_isolates mapA "A" "B" [schedA] rfl rfl

/- ## Claim C7 -/

/-- C7 (confirmed): moving an in-bounds entry and then moving it back with
the remembered previous day and the negated offset restores the whole store
state exactly, and with it the entry, value for value. -/
theorem updateSchedulePosition_roundtrip (m : SchedulesMap) (t : String)
    (l : List Schedule) (i : Nat) (newDay : String) (off : Int)
    (hl : jsGet m t = some l) (hi : i < l.length) :
    ∃ m', updateSchedulePosition t i newDay off m = Except.ok m' ∧
      updateSchedulePosition t i (l.get ⟨i, hi⟩).day (-off) m' = Except.ok m := by
  refine ⟨jsSet m t (updateList (i : Int) newDay off 0 l),
    by simp [updateSchedulePosition, hl], ?_⟩
  have hget : jsGet (jsSet m t (updateList (i : Int) newDay off 0 l)) t =
      some (updateList (i : Int) newDay off 0 l) := jsGet_jsSet_self m t _
  have hL : updateList (i : Int) (l.get ⟨i, hi⟩).day (-off) 0
      (updateList (i : Int) newDay off 0 l) = l := by
    apply List.ext_get
    · rw [updateList_length, updateList_length]
    · intro j h1 h2
      have hj : j < l.length := by
        rw [updateList_length, updateList_length] at h1
        exact h1
      have hj1 : j < (updateList (i : Int) newDay off 0 l).length := by
        rw [updateList_length]
        exact hj
      rw [updateList_get (i : Int) (l.get ⟨i, hi⟩).day (-off) _ 0 j hj1 h1]
      by_cases hji : ((0 + j : Nat) : Int) = (i : Int)
      · rw [if_pos hji, updateList_get (i : Int) newDay off l 0 j hj hj1, if_pos hji]
        have hji' : j = i := by
          have : (j : Int) = (i : Int) := by push_cast at hji; linarith
          exact_mod_cast this
        subst hji'
        simp [List.map_map, Function.comp]
      · rw [if_neg hji, updateList_get (i : Int) newDay off l 0 j hj hj1, if_neg hji]
  rw [updateSchedulePosition, hget]
  simp only [hL]
  rw [jsSet_jsSet, jsSet_jsGet_eq m t l hl]

/-- C7 witness: round trip on the single entry of mapA, moving it to
Wednesday two slots down and back. -/
theorem updateSchedulePosition_roundtrip_witness :
    ∃ m', updateSchedulePosition "A" 0 "수" 2 mapA = Except.ok m' ∧
      updateSchedulePosition "A" 0 (([schedA].get ⟨0, by simp⟩).day) (-2) m' =
        Except.ok mapA :=
  updateSchedulePosition_roundtrip mapA "A" [schedA] 0 "수" 2 rfl (by simp)

/- ## Claim C10 -/

/-- C10 (confirmed): an in-bounds position update rewrites only the day and
range of the addressed entry (day becomes newDay, range is shifted by the
offset); its room and lecture, every other entry of the table, the entry
count and order, and every other table are unchanged. -/
theorem updateSchedulePosition_frame (m : SchedulesMap) (t : String)
    (l : List Schedule) (i : Nat) (d : String) (off : Int)
    (hl : jsGet m t = some l) (hi : i < l.length) :
    ∃ l', updateSchedulePosition t i d off m = Except.ok (jsSet m t l') ∧
      l'.length = l.length ∧
      (∀ h' : i < l'.length,
        (l'.get ⟨i, h'⟩).day = d ∧
        (l'.get ⟨i, h'⟩).range = (l.get ⟨i, hi⟩).range.map (fun time => time + off) ∧
        (l'.get ⟨i, h'⟩).room = (l.get ⟨i, hi⟩).room ∧
        (l'.get ⟨i, h'⟩).lecture = (l.get ⟨i, hi⟩).lecture) ∧
      (∀ (j : Nat) (hj : j < l.length) (hj' : j < l'.length),
        j ≠ i → l'.get ⟨j, hj'⟩ = l.get ⟨j, hj⟩) ∧
      (∀ t', t' ≠ t → jsGet (jsSet m t l') t' = jsGet m t') := by
  refine ⟨updateList (i : Int) d off 0 l, by simp [updateSchedulePosition, hl],
    updateList_length _ _ _ _ _, ?_, ?_, ?_⟩
  · intro h'
    rw [updateList_get (i : Int) d off l 0 i hi h', if_pos (by simp)]
    simp
  · intro j hj hj' hne
    rw [updateList_get (i : Int) d off l 0 j hj hj',
      if_neg (by simpa using fun hh : (j : Int) = (i : Int) => hne (by exact_mod_cast hh))]
  · intro t' hne
    exact jsGet_jsSet_ne m t t' _ hne

/-- C10 witness: the frame statement evaluated on mapA at entry 0. -/
theorem updateSchedulePosition_frame_witness :
    ∃ l', updateSchedulePosition "A" 0 "화" 2 mapA = Except.ok (jsSet mapA "A" l') ∧
      l'.length = [schedA].length ∧
      (∀ h' : 0 < l'.length,
        (l'.get ⟨0, h'⟩).day = "화" ∧
        (l'.get ⟨0, h'⟩).range = (([schedA].get ⟨0, by simp⟩).range.map (fun time => time + 2)) ∧
        (l'.get ⟨0, h'⟩).room = ([schedA].get ⟨0, by simp⟩).room ∧
        (l'.get ⟨0, h'⟩).lecture = ([schedA].get ⟨0, by simp⟩).lecture) ∧
      (∀ (j : Nat) (hj : j < [schedA].length) (hj' : j < l'.length),
        j ≠ 0 → l'.get ⟨j, hj'⟩ = [schedA].get ⟨j, hj⟩) ∧
      (∀ t', t' ≠ "A" → jsGet (jsSet mapA "A" l') t' = jsGet mapA t') :=
  updateSchedulePosition_frame mapA "A" [schedA] 0 "화" 2 rfl (by simp)

/- ## Claim C2 -/

/-- C2, counterexample: at the final clamped delta (-30, -10) -- 0.375
cells left and a third of a cell up from a Tuesday entry, a tie on neither
axis -- the handler as coded (floor) moves the entry to Monday with
timeOffset -1, while the claimed round-to-nearest conversion (ties away
from zero, as the spec defines its round; the tie-break is irrelevant here)
keeps Tuesday with timeOffset 0; so the handler does not convert by
rounding. -/
theorem handleDragEnd_floor_counterexample :
    handleDragEnd "A" dragEvC2 = some ("A", 0, "월", -1) ∧
    handleDragEndRounded "A" dragEvC2 = some ("A", 0, "화", 0) ∧
    handleDragEnd "A" dragEvC2 ≠ handleDragEndRounded "A" dragEvC2 := by
  have hx : jsFloor ((-30 : ℚ) / CellSize.WIDTH) = -1 := by
    rw [jsFloor_eq_floor]
    norm_num [CellSize.WIDTH]
  have hy : jsFloor ((-10 : ℚ) / CellSize.HEIGHT) = -1 := by
    rw [jsFloor_eq_floor]
    norm_num [CellSize.HEIGHT]
  have hx' : roundTiesAway ((-30 : ℚ) / CellSize.WIDTH) = 0 := by
    rw [roundTiesAway, if_neg (by norm_num [CellSize.WIDTH]), jsFloor_eq_floor]
    norm_num [CellSize.WIDTH]
  have hy' : roundTiesAway ((-10 : ℚ) / CellSize.HEIGHT) = 0 := by
    rw [roundTiesAway, if_neg (by norm_num [CellSize.HEIGHT]), jsFloor_eq_floor]
    norm_num [CellSize.HEIGHT]
  have hD : jsIndexOf DAY_LABELS "화" = 1 := by decide
  have h1 : handleDragEnd "A" dragEvC2 = some ("A", 0, "월", -1) := by
    simp only [handleDragEnd, dragEvC2, hx, hy, hD]
    decide
  have h2 : handleDragEndRounded "A" dragEvC2 = some ("A", 0, "화", 0) := by
    simp only [handleDragEndRounded, dragEvC2, hx', hy', hD]
    decide
  refine ⟨h1, h2, ?_⟩
  rw [h1, h2]
  simp

/-- C2 (amended): on a matching drag whose floor-converted day index stays
in range, the handler converts the final clamped delta with floor, round
toward negative infinity -- dayDelta = floor(finalX / cellWidth), timeDelta
= floor(finalY / cellHeight) -- and passes that timeDelta as the timeOffset
of the position update; jsFloor is characterized as the greatest integer
below the quotient. -/
theorem handleDragEnd_floor_semantics (tableId : String) (ev : DragEndEvent)
    (hid : ev.draggedTableId = tableId)
    (h0 : 0 ≤ jsIndexOf DAY_LABELS ev.day + jsFloor (ev.x / CellSize.WIDTH))
    (h6 : jsIndexOf DAY_LABELS ev.day + jsFloor (ev.x / CellSize.WIDTH) <
      (DAY_LABELS.length : Int)) :
    handleDragEnd tableId ev =
      some (tableId, ev.index,
        DAY_LABELS.getD (jsIndexOf DAY_LABELS ev.day + jsFloor (ev.x / CellSize.WIDTH)).toNat "",
        jsFloor (ev.y / CellSize.HEIGHT)) ∧
    ∀ q : ℚ, (jsFloor q : ℚ) ≤ q ∧ q < (jsFloor q : ℚ) + 1 := by
  constructor
  · have h1 : ¬(ev.draggedTableId ≠ tableId) := by simp [hid]
    have h2 : ¬(jsIndexOf DAY_LABELS ev.day + jsFloor (ev.x / CellSize.WIDTH) < 0 ∨
        (DAY_LABELS.length : Int) ≤ jsIndexOf DAY_LABELS ev.day + jsFloor (ev.x / CellSize.WIDTH)) := by
      push_neg
      exact ⟨h0, h6⟩
    simp only [handleDragEnd]
    rw [if_neg h1, if_neg h2]
  · intro q
    rw [jsFloor_eq_floor]
    exact ⟨Int.floor_le q, Int.lt_floor_add_one q⟩

/-- C2 witness: the amended statement evaluated at the concrete drop event
dragEvC2, whose floor-converted day index is 0. -/
theorem handleDragEnd_floor_semantics_witness :
    handleDragEnd "A" dragEvC2 =
      some ("A", dragEvC2.index,
        DAY_LABELS.getD (jsIndexOf DAY_LABELS dragEvC2.day +
          jsFloor (dragEvC2.x / CellSize.WIDTH)).toNat "",
        jsFloor (dragEvC2.y / CellSize.HEIGHT)) ∧
    ∀ q : ℚ, (jsFloor q : ℚ) ≤ q ∧ q < (jsFloor q : ℚ) + 1 :=
  handleDragEnd_floor_semantics "A" dragEvC2 rfl
    (by have hD : jsIndexOf DAY_LABELS "화" = 1 := by decide
        have hx : jsFloor ((-30 : ℚ) / CellSize.WIDTH) = -1 := by
          rw [jsFloor_eq_floor]
          norm_num [CellSize.WIDTH]
        simp only [dragEvC2, hD, hx]
        decide)
    (by have hD : jsIndexOf DAY_LABELS "화" = 1 := by decide
        have hx : jsFloor ((-30 : ℚ) / CellSize.WIDTH) = -1 := by
          rw [jsFloor_eq_floor]
          norm_num [CellSize.WIDTH]
        simp only [dragEvC2, hD, hx]
        decide)

/- ## Claim C3 -/

/-- C3, counterexample: with clamping slack on both sides, the snap of the
raw delta -40 (a tie at -0.5 cells with cellWidth 80) is 0, not the -80
that ties-away-from-zero would give: JS Math.round sends -0.5 to 0. -/
theorem snapModifier_tie_counterexample :
    (snapModifier { x := -40, y := 0 } (some wideContainer) (some originRect)).x = 0 ∧
    ((0 : ℚ) ≠ -80) := by
  have hx : jsRound ((-40 : ℚ) / CellSize.WIDTH) = 0 := by
    rw [jsRound_eq_floor]
    norm_num [CellSize.WIDTH]
  constructor
  · simp only [snapModifier, wideContainer, originRect, Option.map_some, Option.getD_some, hx]
    norm_num [CellSize.WIDTH]
  · norm_num

/-- C3 (amended): the snap modifier computes round(d / c) * c where round
is round-to-nearest with ties toward positive infinity (JS Math.round), not
ties away from zero: the rounded value differs from the exact quotient by
at most one half, reaching one half only from above; concretely with
cellWidth 80, a raw delta of 83 still snaps to 80, the tie -40 (that is,
-0.5 cells) snaps to 0 rather than -80, and -41 snaps to -80. -/
theorem snapModifier_round_ties_up :
    (∀ q : ℚ, -(1/2 : ℚ) < (jsRound q : ℚ) - q ∧ (jsRound q : ℚ) - q ≤ 1/2) ∧
    (snapModifier { x := 83, y := 0 } (some wideContainer) (some originRect)).x = 80 ∧
    (snapModifier { x := -40, y := 0 } (some wideContainer) (some originRect)).x = 0 ∧
    (snapModifier { x := -41, y := 0 } (some wideContainer) (some originRect)).x = -80 := by
  refine ⟨?_, ?_, ?_, ?_⟩
  · intro q
    rw [jsRound_eq_floor]
    constructor
    · have := Int.lt_floor_add_one (q + 1/2)
      linarith
    · have := Int.floor_le (q + 1/2)
      linarith
  · have hx : jsRound ((83 : ℚ) / CellSize.WIDTH) = 1 := by
      rw [jsRound_eq_floor]
      norm_num [CellSize.WIDTH]
    simp only [snapModifier, wideContainer, originRect, Option.map_some, Option.getD_some, hx]
    norm_num [CellSize.WIDTH]
  · have hx : jsRound ((-40 : ℚ) / CellSize.WIDTH) = 0 := by
      rw [jsRound_eq_floor]
      norm_num [CellSize.WIDTH]
    simp only [snapModifier, wideContainer, originRect, Option.map_some, Option.getD_some, hx]
    norm_num [CellSize.WIDTH]
  · have hx : jsRound ((-41 : ℚ) / CellSize.WIDTH) = -1 := by
      rw [jsRound_eq_floor]
      norm_num [CellSize.WIDTH]
    simp only [snapModifier, wideContainer, originRect, Option.map_some, Option.getD_some, hx]
    norm_num [CellSize.WIDTH]

/- ## Claim C8 -/

/-- C8, counterexample: with the query credit set to 3, the pipeline keeps
the lecture whose credits string is 35, because the filter is a
string-prefix test; an exact credit match would reject it. -/
theorem filteredLectures_credits_not_exact :
    filteredLectures (fun _ => []) qCredits3 [lec35] = [lec35] ∧
    matchesCreditsExact (some 3) lec35 = false := by
  constructor
  · rfl
  · rfl

/-- C8 (amended): with a set, nonzero query credit c, membership in the
filtered output is the conjunction of the other five dimensions with the
credits test, and that test is a decimal-string prefix test
(credits.startsWith(String(c))), not an exact match. -/
theorem filteredLectures_credits_prefix_and (ps : String → List ParsedSchedule)
    (q : SearchOption) (lectures : List Lecture) (c : Int)
    (hc : q.credits = some c) (h0 : c ≠ 0) (lecture : Lecture) :
    lecture ∈ filteredLectures ps q lectures ↔
      lecture ∈ lectures ∧ matchesQuery q.query lecture = true ∧
      matchesGrades q.grades lecture = true ∧ matchesMajors q.majors lecture = true ∧
      jsStartsWith lecture.credits (toString c) = true ∧
      matchesDays ps q.days lecture = true ∧ matchesTimes ps q.times lecture = true := by
  have hb : (c == 0) = false := by simpa using h0
  have hcc : matchesCredits q.credits lecture =
      jsStartsWith lecture.credits (toString c) := by
    rw [hc]
    simp [matchesCredits, hb]
  simp only [filteredLectures, List.mem_filter, hcc]
  tauto

/-- C8 witness: the amended membership equivalence evaluated at the
credits-35 lecture under the credit-3 query. -/
theorem filteredLectures_credits_prefix_and_witness :
    lec35 ∈ filteredLectures (fun _ => []) qCredits3 [lec35] ↔
      lec35 ∈ [lec35] ∧ matchesQuery qCredits3.query lec35 = true ∧
      matchesGrades qCredits3.grades lec35 = true ∧
      matchesMajors qCredits3.majors lec35 = true ∧
      jsStartsWith lec35.credits (toString (3 : Int)) = true ∧
      matchesDays (fun _ => []) qCredits3.days lec35 = true ∧
      matchesTimes (fun _ => []) qCredits3.times lec35 = true :=
  filteredLectures_credits_prefix_and (fun _ => []) qCredits3 [lec35] 3 rfl
    (by decide) lec35

/- ## Claim C9 -/

/-- C9 (confirmed): for a key not yet cached, the first fetch issues
exactly one underlying fetch and stores the pending entry (data still
absent) under the key; a second fetch for that key before anything
resolves returns exactly the stored promise handle and leaves the cache
state untouched, issuing no further underlying fetch. -/
theorem fetchByKey_coalesces (key : String) (now1 now2 : Nat) (st : CacheState)
    (h : jsGet st.entries key = none) :
    (fetchByKey key now1 st).2.issued = st.issued + 1 ∧
    jsGet (fetchByKey key now1 st).2.entries key =
      some { promise := (fetchByKey key now1 st).1, timestamp := now1, data := none } ∧
    (fetchByKey key now2 (fetchByKey key now1 st).2).1 = (fetchByKey key now1 st).1 ∧
    (fetchByKey key now2 (fetchByKey key now1 st).2).2 = (fetchByKey key now1 st).2 := by
  have h1 : fetchByKey key now1 st =
      (st.issued,
       { entries := jsSet st.entries key
           { promise := st.issued, timestamp := now1, data := none },
         issued := st.issued + 1 }) := by
    simp [fetchByKey, h]
  have h2 : jsGet (jsSet st.entries key
      { promise := st.issued, timestamp := now1, data := none }) key =
      some { promise := st.issued, timestamp := now1, data := none } :=
    jsGet_jsSet_self _ _ _
  rw [h1]
  exact ⟨rfl, h2, by simp [fetchByKey, h2], by simp [fetchByKey, h2]⟩

/-- C9 witness: two fetches of the majors key against the empty cache. -/
theorem fetchByKey_coalesces_witness :
    (fetchMajors 5 ⟨[], 0⟩).2.issued = 1 ∧
    jsGet (fetchMajors 5 ⟨[], 0⟩).2.entries "schedules-majors" =
      some { promise := (fetchMajors 5 ⟨[], 0⟩).1, timestamp := 5, data := none } ∧
    (fetchMajors 7 (fetchMajors 5 ⟨[], 0⟩).2).1 = (fetchMajors 5 ⟨[], 0⟩).1 ∧
    (fetchMajors 7 (fetchMajors 5 ⟨[], 0⟩).2).2 = (fetchMajors 5 ⟨[], 0⟩).2 :=
  fetchByKey_coalesces "schedules-majors" 5 7 ⟨[], 0⟩ rfl
